import Mathlib

/-!
Verification of the archive-parsing and metadata-reconciliation subsystem of
the private-extension-manager repository.

The embedding follows the TypeScript source:
- src/storageProvider.ts: compareVersions, deduplicateExtensions,
  extractExtensionDataWithManifestPriority, and the required-field validation
  in parseVsixFile.
- src/vsixParser.ts: the from-scratch ZIP reader (parseCentralDirectory,
  parseCentralDirectoryEntry, parseLocalHeader, extractFile) and the optional
  resource extractors (extractIcon, extractReadme, extractChangelog).

JavaScript strings are modelled as Lean String; the string operations the
source uses (split, trim, includes, parseInt) are implemented over the
underlying character lists so that every definition evaluates by kernel
reduction. JavaScript truthiness of strings (empty string is falsy) and of
objects and arrays (always truthy) is modelled explicitly. External
collaborators (zlib raw-deflate inflation, UTF-8 decoding of byte buffers)
are passed in as explicit function parameters, mirroring the fact that they
are library facilities and not code of this repository.
-/

namespace PrivExtMgr

/-! ## JavaScript string primitives -/

/-- JS s.split(sep)[0]: the prefix of the character list before the first
occurrence of sep. -/
def preSplitChars (sep : Char) (cs : List Char) : List Char :=
  cs.takeWhile (fun c => c ≠ sep)

/-- JS s.split(sep): split a character list on every occurrence of sep
(empty pieces are kept, as in JavaScript). -/
def splitOnChar (sep : Char) : List Char → List (List Char)
  | [] => [[]]
  | c :: cs =>
    if c = sep then [] :: splitOnChar sep cs
    else
      match splitOnChar sep cs with
      | [] => [[c]]
      | s :: ss => (c :: s) :: ss

/-- Value of a list of decimal digit characters. -/
def digitsToNat (ds : List Char) : Nat :=
  ds.foldl (fun n c => n * 10 + (c.toNat - 48)) 0

/-- JS (parseInt(part, 10) || 0): skip leading whitespace, read the longest
decimal digit run, and map a failed parse (NaN) to 0. Sign characters cannot
occur here because compareVersions only applies this to segments of a core
version from which every character from the first hyphen or plus on has been
removed. -/
def parseIntOr0 (cs : List Char) : Nat :=
  digitsToNat ((cs.dropWhile Char.isWhitespace).takeWhile Char.isDigit)

/-! ## compareVersions (src/storageProvider.ts, lines 874-897) -/

/-- The cleaned core of a version string:
version.split(the hyphen)[0].split(the plus)[0] in the source. -/
def cleanVersionChars (v : String) : List Char :=
  preSplitChars '+' (preSplitChars '-' v.data)

/-- The numeric segments of a version string:
cleanVersion.split(the dot).map(part => parseInt(part, 10) || 0). -/
def versionParts (v : String) : List Nat :=
  (splitOnChar '.' (cleanVersionChars v)).map parseIntOr0

/-- The segment comparison loop of compareVersions: compare index by index up
to the longer list, treating missing trailing segments as 0, returning at the
first unequal pair. When the first list is exhausted the loop compares 0
against each remaining segment of the second list, so the result is -1 when
some remaining segment is positive and 0 otherwise; that case is folded into
the base equation to keep the recursion structural. -/
def cmpSegs : List Nat → List Nat → Int
  | [], bs => if bs.any (fun b => decide (b > 0)) then -1 else 0
  | a :: as, [] => if a > 0 then 1 else cmpSegs as []
  | a :: as, b :: bs =>
    if a > b then 1 else if a < b then -1 else cmpSegs as bs

/-- JS version.includes(the hyphen character), tested on the full original
string in the source. -/
def containsDash (v : String) : Bool :=
  v.data.contains '-'

/-- Faithful translation of compareVersions from src/storageProvider.ts:
clean both versions, compare numeric segments with ragged-length padding,
then break ties by which original string contains a hyphen. -/
def compareVersions (version1 version2 : String) : Int :=
  let segCmp := cmpSegs (versionParts version1) (versionParts version2)
  if segCmp ≠ 0 then segCmp
  else if containsDash version1 && !containsDash version2 then -1
  else if !containsDash version1 && containsDash version2 then 1
  else 0

/-! ## Order theory for cmpSegs via a canonical form -/

/-- Lexicographic comparison of two segment lists of possibly different
lengths, a shorter list being a strict prefix sorting first. -/
def lexCmp : List Nat → List Nat → Int
  | [], [] => 0
  | _ :: _, [] => 1
  | [], _ :: _ => -1
  | a :: as, b :: bs =>
    if a > b then 1 else if a < b then -1 else lexCmp as bs

/-- Remove trailing zero segments; cmpSegs compares two lists exactly as
lexCmp compares their stripped forms. -/
def stripZeros : List Nat → List Nat
  | [] => []
  | x :: xs =>
    match stripZeros xs with
    | [] => if x = 0 then [] else [x]
    | y :: ys => x :: y :: ys

/-! ## ExtensionInfo and deduplicateExtensions (src/storageProvider.ts) -/

/-- Gallery banner descriptor carried by the package descriptor. -/
structure GalleryBanner where
  color : Option String := none
  theme : Option String := none
deriving Repr, DecidableEq

/-- The ExtensionInfo record of src/storageProvider.ts. The JS Date in
lastModified is modelled as epoch milliseconds, and the string-keyed engines
object as an association list. -/
structure ExtensionInfo where
  id : String
  title : String
  description : String
  version : String
  author : String
  publisher : String
  icon : Option String := none
  filePath : String
  fileSize : Nat
  lastModified : Nat
  isInstalled : Bool
  hasUpdate : Option Bool := none
  categories : Option (List String) := none
  keywords : Option (List String) := none
  repository : Option String := none
  homepage : Option String := none
  license : Option String := none
  engines : Option (List (String × String)) := none
  activationEvents : Option (List String) := none
  main : Option String := none
  preview : Option Bool := none
  galleryBanner : Option GalleryBanner := none
  tags : Option (List String) := none
  galleryFlags : Option (List String) := none
  targetPlatforms : Option (List String) := none
  language : Option String := none
deriving Repr, DecidableEq

/-- One step of the deduplication loop of deduplicateExtensions: the JS Map
keyed by id keeps the position of an existing key on update, appends a new
key at the end, and the loop body replaces the stored record only when the
incoming version compares strictly greater. -/
def dedupInsert (acc : List ExtensionInfo) (ext : ExtensionInfo) :
    List ExtensionInfo :=
  match acc.find? (fun e => e.id == ext.id) with
  | none => acc ++ [ext]
  | some existing =>
    if compareVersions ext.version existing.version > 0 then
      acc.map (fun e => if e.id == ext.id then ext else e)
    else acc

/-- deduplicateExtensions from src/storageProvider.ts: fold the input in
order through an id-keyed map and return the values in key-insertion
order. -/
def deduplicateExtensions (extensions : List ExtensionInfo) :
    List ExtensionInfo :=
  extensions.foldl dedupInsert []

/-- Invariant of the deduplication fold: the accumulator has pairwise
distinct ids, each stored record is an occurrence in the processed prefix
that strictly beats every earlier same-id occurrence, every processed id is
covered, and each stored record is a maximum among processed same-id
records. -/
def DedupInv (processed acc : List ExtensionInfo) : Prop :=
  ((acc.map (fun e => e.id)).Nodup) ∧
  (∀ e ∈ acc, ∃ p q, processed = p ++ e :: q ∧
    ∀ x ∈ p, x.id = e.id → compareVersions e.version x.version > 0) ∧
  (∀ x ∈ processed, ∃ e ∈ acc, e.id = x.id) ∧
  (∀ e ∈ acc, ∀ x ∈ processed, x.id = e.id →
    compareVersions e.version x.version ≥ 0)

/-- Witness data for C7: two records with id acme.foo and versions 1.0.0 and
1.1.0. -/
def extOne : ExtensionInfo :=
  { id := "acme.foo", title := "Foo", description := "", version := "1.0.0",
    author := "acme", publisher := "acme", filePath := "/ext/foo-1.0.0.vsix",
    fileSize := 1, lastModified := 0, isInstalled := false }

def extTwo : ExtensionInfo :=
  { id := "acme.foo", title := "Foo", description := "", version := "1.1.0",
    author := "acme", publisher := "acme", filePath := "/ext/foo-1.1.0.vsix",
    fileSize := 1, lastModified := 0, isInstalled := false }

/-! ## JavaScript truthiness helpers for the metadata merge -/

/-- Truthiness of a possibly-undefined JS string: undefined and the empty
string are falsy. -/
def strTruthy : Option String → Bool
  | none => false
  | some s => s != ""

/-- JS (a or b) for string operands, returning the second operand unchanged
(possibly undefined or empty) when the first is falsy. -/
def jsOrStr (a b : Option String) : Option String :=
  if strTruthy a then a else b

/-- JS (a or b or d) collapsed to a definite string with default d. -/
def jsOrStrD (a b : Option String) (d : String) : String :=
  if strTruthy a then a.getD "" else if strTruthy b then b.getD "" else d

/-- JS (a or the empty string). -/
def jsOrEmpty (a : Option String) : String :=
  if strTruthy a then a.getD "" else ""

/-- JS (a or b) for object or array operands: any present object is truthy,
even an empty one. -/
def jsOrObj {α : Type} (a b : Option α) : Option α :=
  if a.isSome then a else b

/-- A JS value flowing through the untyped description merge: undefined, a
string, or a truthy non-string object (the Description element object leaks
through when its text payload is missing or empty). -/
inductive JsVal where
  | undef
  | str (s : String)
  | objLeak
deriving Repr, DecidableEq

def jsValTruthy : JsVal → Bool
  | .undef => false
  | .str s => s != ""
  | .objLeak => true

/-- JS (a or b or the empty string) where a is the manifest description value
and b the descriptor description. -/
def jsOrVal (a : JsVal) (b : Option String) : JsVal :=
  if jsValTruthy a then a
  else if strTruthy b then .str (b.getD "")
  else .str ""

/-- JS String.trim over the character list. -/
def jsTrimChars (cs : List Char) : List Char :=
  ((cs.dropWhile Char.isWhitespace).reverse.dropWhile Char.isWhitespace).reverse

/-- JS s.split(the comma).map(x => x.trim()) as used for manifest Categories,
Tags and GalleryFlags. -/
def splitComma (s : String) : List String :=
  (splitOnChar ',' s.data).map (fun cs => String.mk (jsTrimChars cs))

/-- The truthiness-guarded comma split: the source splits only inside
if (metadata.Field?.[0]), so a missing or empty first element yields no
assignment. -/
def splitIfTruthy (o : Option String) : Option (List String) :=
  match o with
  | some s => if s = "" then none else some (splitComma s)
  | none => none

/-! ## Manifest and descriptor document shapes (src/vsixParser.ts) -/

/-- Attributes of the Identity element of the installer manifest. -/
structure IdentityAttr where
  Id : String
  Version : String
  Language : String
  Publisher : String
deriving Repr, DecidableEq

/-- One element of the Description array; text models the underscore payload
field, absent when the parsed element carried no text. -/
structure DescElem where
  text : Option String := none
deriving Repr, DecidableEq

/-- One Property element: attributes Id and Value. -/
structure ManifestProperty where
  Id : String
  Value : String
deriving Repr, DecidableEq

/-- One element of the Properties array, wrapping the Property list. -/
structure PropertiesElem where
  Property : List ManifestProperty := []
deriving Repr, DecidableEq

/-- Metadata element of the manifest. The optional arrays of the TypeScript
interface are modelled as plain lists: the code only ever reads element 0
through optional chaining, where a missing array and an empty array are
indistinguishable. -/
structure MetadataElem where
  Identity : List IdentityAttr := []
  DisplayName : List String := []
  Description : List DescElem := []
  Tags : List String := []
  Categories : List String := []
  GalleryFlags : List String := []
  Properties : List PropertiesElem := []
deriving Repr, DecidableEq

/-- Attributes of one InstallationTarget element. -/
structure InstallTargetAttr where
  Id : String
  Version : String
deriving Repr, DecidableEq

/-- One element of the Installation array, wrapping its target list. -/
structure InstallationElem where
  InstallationTarget : List InstallTargetAttr := []
deriving Repr, DecidableEq

/-- Attributes of one Asset element; typ models the Type attribute, Type
being a reserved word in Lean. -/
structure AssetAttr where
  typ : String
  Path : String
  Addressable : Option String := none
deriving Repr, DecidableEq

/-- One element of the Assets array, wrapping its asset list. -/
structure AssetsElem where
  Asset : List AssetAttr := []
deriving Repr, DecidableEq

/-- Body of the PackageManifest element. -/
structure PackageManifestBody where
  Metadata : List MetadataElem := []
  Installation : List InstallationElem := []
  Assets : List AssetsElem := []
deriving Repr, DecidableEq

/-- The parsed installer manifest (VsixManifest in src/vsixParser.ts). -/
structure VsixManifest where
  PackageManifest : PackageManifestBody
deriving Repr, DecidableEq

/-- The descriptor author field: a plain string or a structured record. -/
inductive PkgAuthor where
  | plain (s : String)
  | structured (name : String) (email : Option String := none)
      (url : Option String := none)
deriving Repr, DecidableEq

/-- The descriptor repository field: a plain string or a type and url
record. -/
inductive PkgRepository where
  | plain (s : String)
  | structured (typ : String) (url : String)
deriving Repr, DecidableEq

/-- The parsed package descriptor (VsixPackageJson in src/vsixParser.ts).
Fields the reconciliation code never reads (contributes, scripts,
dependencies, devDependencies, bugs, qna, badges) are omitted; string-keyed
engine objects are association lists. -/
structure VsixPackageJson where
  name : String
  displayName : Option String := none
  description : Option String := none
  version : String
  publisher : String
  author : Option PkgAuthor := none
  icon : Option String := none
  categories : Option (List String) := none
  keywords : Option (List String) := none
  engines : Option (List (String × String)) := none
  activationEvents : Option (List String) := none
  repository : Option PkgRepository := none
  homepage : Option String := none
  license : Option String := none
  main : Option String := none
  galleryBanner : Option GalleryBanner := none
  preview : Option Bool := none
deriving Repr, DecidableEq

/-! ## extractExtensionDataWithManifestPriority
(src/storageProvider.ts, lines 678-842) -/

/-- The intermediate manifestData object: every field starts undefined. -/
structure MData where
  id : Option String := none
  version : Option String := none
  publisher : Option String := none
  language : Option String := none
  title : Option String := none
  description : JsVal := .undef
  categories : Option (List String) := none
  tags : Option (List String) := none
  galleryFlags : Option (List String) := none
  engines : Option (List (String × String)) := none
  repository : Option String := none
  homepage : Option String := none
  license : Option String := none
  targetPlatforms : Option (List String) := none
deriving Repr, DecidableEq

/-- The intermediate packageData object: every field starts undefined. -/
structure PData where
  id : Option String := none
  title : Option String := none
  description : Option String := none
  version : Option String := none
  publisher : Option String := none
  author : Option String := none
  repository : Option String := none
  categories : Option (List String) := none
  keywords : Option (List String) := none
  engines : Option (List (String × String)) := none
  activationEvents : Option (List String) := none
  main : Option String := none
  preview : Option Bool := none
  galleryBanner : Option GalleryBanner := none
  license : Option String := none
  homepage : Option String := none
deriving Repr, DecidableEq

/-- The merged result record returned by
extractExtensionDataWithManifestPriority. -/
structure ExtData where
  id : String
  title : String
  description : JsVal
  version : String
  author : String
  publisher : String
  categories : Option (List String)
  keywords : Option (List String)
  repository : Option String
  homepage : Option String
  license : Option String
  engines : Option (List (String × String))
  activationEvents : Option (List String)
  main : Option String
  preview : Option Bool
  galleryBanner : Option GalleryBanner
  tags : Option (List String)
  galleryFlags : Option (List String)
  targetPlatforms : Option (List String)
  language : Option String
deriving Repr, DecidableEq

/-- The description expression of the source:
metadata.Description?.[0]?.text or metadata.Description?.[0] or the empty
string; a present element whose text is missing or empty makes the element
object itself the value. -/
def manifestDescriptionVal (desc : List DescElem) : JsVal :=
  match desc.head? with
  | none => .str ""
  | some d =>
    match d.text with
    | some s => if s = "" then .objLeak else .str s
    | none => .objLeak

/-- The property bag lookup: forEach inserts each property whose Id and Value
attributes are both truthy (last write wins), and the later guarded reads
test the stored value for truthiness, which the insertion guard already
ensures. -/
def propLookup (props : List ManifestProperty) (key : String) : Option String :=
  ((props.filter (fun p => p.Id != "" && p.Value != "" && p.Id == key)).getLast?).map
    (fun p => p.Value)

/-- The manifestData extraction: the Metadata branch fills identity, display
and property-bag fields; the Installation branch, outside the Metadata
guard, fills targetPlatforms. -/
def extractManifestData (manifest : Option VsixManifest) : MData :=
  let md1 : MData :=
    match manifest with
    | none => {}
    | some m =>
      match m.PackageManifest.Metadata.head? with
      | none => {}
      | some metadata =>
        let identity := metadata.Identity.head?
        let props :=
          match metadata.Properties.head? with
          | some pe => pe.Property
          | none => []
        let withIdent : MData :=
          match identity with
          | some ident =>
            { id := some (ident.Publisher ++ "." ++ ident.Id),
              version := some ident.Version,
              publisher := some ident.Publisher,
              language := some ident.Language }
          | none => {}
        { withIdent with
          title := jsOrStr metadata.DisplayName.head? (identity.map (fun i => i.Id)),
          description := manifestDescriptionVal metadata.Description,
          categories := splitIfTruthy metadata.Categories.head?,
          tags := splitIfTruthy metadata.Tags.head?,
          galleryFlags := splitIfTruthy metadata.GalleryFlags.head?,
          engines := (propLookup props "Microsoft.VisualStudio.Code.Engine").map
            (fun v => [("vscode", v)]),
          repository := propLookup props "Microsoft.VisualStudio.Services.Links.Source",
          homepage := propLookup props "Microsoft.VisualStudio.Services.Links.Getstarted",
          license := propLookup props "Microsoft.VisualStudio.Services.Links.License" }
  match manifest with
  | none => md1
  | some m =>
    match m.PackageManifest.Installation.head? with
    | none => md1
    | some inst =>
      { md1 with
        targetPlatforms := some (inst.InstallationTarget.map (fun t => t.Id)) }

/-- The packageData extraction from the descriptor. -/
def extractPackageData (packageJson : Option VsixPackageJson) : PData :=
  match packageJson with
  | none => {}
  | some pj =>
    { id := some (if pj.publisher != "" && pj.name != ""
        then pj.publisher ++ "." ++ pj.name else ""),
      title := jsOrStr pj.displayName (some pj.name),
      description := some (jsOrEmpty pj.description),
      version := some pj.version,
      publisher := some pj.publisher,
      categories := pj.categories,
      keywords := pj.keywords,
      engines := pj.engines,
      activationEvents := pj.activationEvents,
      main := pj.main,
      preview := pj.preview,
      galleryBanner := pj.galleryBanner,
      license := pj.license,
      homepage := pj.homepage,
      author :=
        match pj.author with
        | some (.plain s) => some s
        | some (.structured name _ _) =>
          some (if name != "" then name else "Unknown")
        | none => none,
      repository :=
        match pj.repository with
        | some (.plain s) => some s
        | some (.structured _ url) => some url
        | none => none }

/-- extractExtensionDataWithManifestPriority from src/storageProvider.ts:
the field-by-field merge with manifest priority for identity, display and
link fields, and descriptor priority for author and technical fields. -/
def extractExtensionDataWithManifestPriority (manifest : Option VsixManifest)
    (packageJson : Option VsixPackageJson) : ExtData :=
  let manifestData := extractManifestData manifest
  let packageData := extractPackageData packageJson
  { id := jsOrStrD manifestData.id packageData.id "",
    version := jsOrStrD manifestData.version packageData.version "",
    publisher := jsOrStrD manifestData.publisher packageData.publisher "",
    title := jsOrStrD manifestData.title packageData.title "",
    description := jsOrVal manifestData.description packageData.description,
    author := jsOrStrD packageData.author manifestData.publisher "Unknown",
    categories := jsOrObj manifestData.categories packageData.categories,
    tags := manifestData.tags,
    engines := jsOrObj packageData.engines manifestData.engines,
    activationEvents := packageData.activationEvents,
    main := packageData.main,
    preview := packageData.preview,
    galleryBanner := packageData.galleryBanner,
    repository := jsOrStr manifestData.repository packageData.repository,
    homepage := jsOrStr manifestData.homepage packageData.homepage,
    license := jsOrStr manifestData.license packageData.license,
    keywords := packageData.keywords,
    galleryFlags := manifestData.galleryFlags,
    targetPlatforms := manifestData.targetPlatforms,
    language := manifestData.language }

/-- The required-field validation of parseVsixFile (src/storageProvider.ts,
lines 601-606): the merged record is accepted only when id, version and
publisher are all non-empty; none models the MissingRequiredFields
condition, on which the caller skips the archive. -/
def reconcile (manifest : Option VsixManifest)
    (packageJson : Option VsixPackageJson) : Option ExtData :=
  let extensionData := extractExtensionDataWithManifestPriority manifest packageJson
  if extensionData.id = "" ∨ extensionData.version = "" ∨
      extensionData.publisher = "" then none
  else some extensionData

/-- The concrete descriptor of the C8 scenario. -/
def demoDescriptor : VsixPackageJson :=
  { name := "foo", version := "1.2.3", publisher := "acme" }

/-- Witness data for C1: a concrete manifest with identity publisher acme
and id foo beats a conflicting descriptor. -/
def demoIdentity : IdentityAttr :=
  { Id := "foo", Version := "2.0.0", Language := "en-US", Publisher := "acme" }

def demoMetadata : MetadataElem :=
  { Identity := [demoIdentity], DisplayName := ["Foo Extension"] }

def demoManifest : VsixManifest :=
  { PackageManifest := { Metadata := [demoMetadata] } }

def conflictingDescriptor : VsixPackageJson :=
  { name := "bar", version := "9.9.9", publisher := "other" }

/-! ## ZIP reader byte-level model (src/vsixParser.ts) -/

/-- Structural failures of the ZIP reader. rangeError models the RangeError
Node throws on an out-of-bounds fixed-field read; inflateError models a
rejected raw-deflate inflation. -/
inductive ZipError where
  | eocdNotFound
  | invalidCentralDirectorySignature (sig : Nat)
  | invalidLocalSignature (sig : Nat)
  | unsupportedCompressionMethod (m : Nat)
  | rangeError
  | inflateError
deriving Repr, DecidableEq

def eocdSignature : Nat := 0x06054b50

def cdSignature : Nat := 0x02014b50

def localSignature : Nat := 0x04034b50

/-- buffer.readUInt16LE: little-endian, none when out of bounds. -/
def readUInt16LE (buf : List Nat) (i : Nat) : Option Nat :=
  match buf.get? i, buf.get? (i+1) with
  | some b0, some b1 => some (b0 + b1 * 256)
  | _, _ => none

/-- buffer.readUInt32LE: little-endian, none when out of bounds. -/
def readUInt32LE (buf : List Nat) (i : Nat) : Option Nat :=
  match buf.get? i, buf.get? (i+1), buf.get? (i+2), buf.get? (i+3) with
  | some b0, some b1, some b2, some b3 =>
    some (b0 + b1 * 256 + b2 * 65536 + b3 * 16777216)
  | _, _, _, _ => none

/-- buffer.subarray(a, b): a clamped slice that never throws. -/
def sliceBytes (buf : List Nat) (a b : Nat) : List Nat :=
  (buf.drop a).take (b - a)

/-- The backward scan of parseCentralDirectory for the EOCD signature,
counting down from the given start offset to 0. -/
def scanForEocd (buf : List Nat) : Nat → Option Nat
  | 0 => if readUInt32LE buf 0 = some eocdSignature then some 0 else none
  | i + 1 =>
    if readUInt32LE buf (i+1) = some eocdSignature then some (i+1)
    else scanForEocd buf i

/-- EOCD location: the JS loop starts at fileBuffer.length - 22 and counts
down; with fewer than 22 bytes the loop body never runs and the scan
fails. -/
def findEocdOffset (buf : List Nat) : Option Nat :=
  if buf.length < 22 then none else scanForEocd buf (buf.length - 22)

/-- A parsed Central Directory entry (ZipCentralDirectory in the source). -/
structure ZipCentralDirectory where
  signature : Nat
  versionMadeBy : Nat
  versionNeeded : Nat
  flags : Nat
  compressionMethod : Nat
  modTime : Nat
  modDate : Nat
  crc32 : Nat
  compressedSize : Nat
  uncompressedSize : Nat
  fileNameLength : Nat
  extraFieldLength : Nat
  fileCommentLength : Nat
  diskStart : Nat
  internalAttributes : Nat
  externalAttributes : Nat
  localHeaderOffset : Nat
  fileName : String
  extraField : List Nat
  fileComment : String
deriving Repr, DecidableEq

/-- The fixed-field reads of parseCentralDirectoryEntry after the signature
check, at the byte offsets of the source; any out-of-bounds read yields
none. The variable-length name, extra field and comment are clamped
subarray slices and cannot fail; text fields are decoded by the utf8
collaborator. -/
def readCDFields (utf8 : List Nat → String) (buf : List Nat) (offset : Nat)
    (signature : Nat) : Option ZipCentralDirectory :=
  match readUInt16LE buf (offset + 4), readUInt16LE buf (offset + 6),
      readUInt16LE buf (offset + 8), readUInt16LE buf (offset + 10),
      readUInt16LE buf (offset + 12), readUInt16LE buf (offset + 14),
      readUInt32LE buf (offset + 16), readUInt32LE buf (offset + 20),
      readUInt32LE buf (offset + 24), readUInt16LE buf (offset + 28),
      readUInt16LE buf (offset + 30), readUInt16LE buf (offset + 32),
      readUInt16LE buf (offset + 34), readUInt16LE buf (offset + 36),
      readUInt32LE buf (offset + 38), readUInt32LE buf (offset + 42) with
  | some versionMadeBy, some versionNeeded, some flags, some compressionMethod,
    some modTime, some modDate, some crc32, some compressedSize,
    some uncompressedSize, some fileNameLength, some extraFieldLength,
    some fileCommentLength, some diskStart, some internalAttributes,
    some externalAttributes, some localHeaderOffset =>
    some { signature := signature, versionMadeBy := versionMadeBy,
           versionNeeded := versionNeeded, flags := flags,
           compressionMethod := compressionMethod, modTime := modTime,
           modDate := modDate, crc32 := crc32,
           compressedSize := compressedSize,
           uncompressedSize := uncompressedSize,
           fileNameLength := fileNameLength,
           extraFieldLength := extraFieldLength,
           fileCommentLength := fileCommentLength, diskStart := diskStart,
           internalAttributes := internalAttributes,
           externalAttributes := externalAttributes,
           localHeaderOffset := localHeaderOffset,
           fileName := utf8 (sliceBytes buf (offset + 46)
             (offset + 46 + fileNameLength)),
           extraField := sliceBytes buf (offset + 46 + fileNameLength)
             (offset + 46 + fileNameLength + extraFieldLength),
           fileComment := utf8 (sliceBytes buf
             (offset + 46 + fileNameLength + extraFieldLength)
             (offset + 46 + fileNameLength + extraFieldLength +
               fileCommentLength)) }
  | _, _, _, _, _, _, _, _, _, _, _, _, _, _, _, _ => none

/-- parseCentralDirectoryEntry from src/vsixParser.ts: the signature is read
first and checked against 0x02014b50 before any other field is read. -/
def parseCentralDirectoryEntry (utf8 : List Nat → String) (buf : List Nat)
    (offset : Nat) : Except ZipError ZipCentralDirectory :=
  match readUInt32LE buf offset with
  | none => .error .rangeError
  | some signature =>
    if signature ≠ cdSignature then
      .error (.invalidCentralDirectorySignature signature)
    else
      match readCDFields utf8 buf offset signature with
      | none => .error .rangeError
      | some entry => .ok entry

/-- The walk advance of the source loop: 46 fixed bytes plus the name, extra
field and comment lengths of the entry just parsed. -/
def entrySize (e : ZipCentralDirectory) : Nat :=
  46 + e.fileNameLength + e.extraFieldLength + e.fileCommentLength

/-- The Central Directory walk: parse exactly the announced number of
entries, advancing past each entry by its size. -/
def parseCDEntries (utf8 : List Nat → String) (buf : List Nat) :
    Nat → Nat → Except ZipError (List ZipCentralDirectory)
  | 0, _ => .ok []
  | n + 1, off =>
    match parseCentralDirectoryEntry utf8 buf off with
    | .error e => .error e
    | .ok entry =>
      match parseCDEntries utf8 buf n (off + entrySize entry) with
      | .error e => .error e
      | .ok rest => .ok (entry :: rest)

/-- parseCentralDirectory from src/vsixParser.ts: locate the EOCD record by
backward scan, read totalEntries, the directory size and the directory
offset from it, then walk the Central Directory. -/
def parseCentralDirectory (utf8 : List Nat → String) (buf : List Nat) :
    Except ZipError (List ZipCentralDirectory) :=
  match findEocdOffset buf with
  | none => .error .eocdNotFound
  | some eocdOffset =>
    match readUInt16LE buf (eocdOffset + 10) with
    | none => .error .rangeError
    | some totalEntries =>
      match readUInt32LE buf (eocdOffset + 12) with
      | none => .error .rangeError
      | some _centralDirSize =>
        match readUInt32LE buf (eocdOffset + 16) with
        | none => .error .rangeError
        | some centralDirOffset =>
          parseCDEntries utf8 buf totalEntries centralDirOffset

/-- The offset chain of the Central Directory walk: each entry parses at its
offset and the next entry starts immediately past it. -/
def cdChain (utf8 : List Nat → String) (buf : List Nat) :
    Nat → List ZipCentralDirectory → Prop
  | _, [] => True
  | off, e :: es =>
    parseCentralDirectoryEntry utf8 buf off = .ok e ∧
      cdChain utf8 buf (off + entrySize e) es

/-- A parsed Local File Header (ZipLocalHeader in the source). -/
structure ZipLocalHeader where
  signature : Nat
  versionNeeded : Nat
  flags : Nat
  compressionMethod : Nat
  modTime : Nat
  modDate : Nat
  crc32 : Nat
  compressedSize : Nat
  uncompressedSize : Nat
  fileNameLength : Nat
  extraFieldLength : Nat
  fileName : String
  extraField : List Nat
deriving Repr, DecidableEq

/-- The fixed-field reads of parseLocalHeader after the signature check; the
name and extra-field lengths are read fresh from this local header at
offsets 26 and 28. -/
def readLocalFields (utf8 : List Nat → String) (buf : List Nat) (offset : Nat)
    (signature : Nat) : Option ZipLocalHeader :=
  match readUInt16LE buf (offset + 26), readUInt16LE buf (offset + 28),
      readUInt16LE buf (offset + 4), readUInt16LE buf (offset + 6),
      readUInt16LE buf (offset + 8), readUInt16LE buf (offset + 10),
      readUInt16LE buf (offset + 12), readUInt32LE buf (offset + 14),
      readUInt32LE buf (offset + 18), readUInt32LE buf (offset + 22) with
  | some fileNameLength, some extraFieldLength, some versionNeeded, some flags,
    some compressionMethod, some modTime, some modDate, some crc32,
    some compressedSize, some uncompressedSize =>
    some { signature := signature, versionNeeded := versionNeeded,
           flags := flags, compressionMethod := compressionMethod,
           modTime := modTime, modDate := modDate, crc32 := crc32,
           compressedSize := compressedSize,
           uncompressedSize := uncompressedSize,
           fileNameLength := fileNameLength,
           extraFieldLength := extraFieldLength,
           fileName := utf8 (sliceBytes buf (offset + 30)
             (offset + 30 + fileNameLength)),
           extraField := sliceBytes buf (offset + 30 + fileNameLength)
             (offset + 30 + fileNameLength + extraFieldLength) }
  | _, _, _, _, _, _, _, _, _, _ => none

/-- parseLocalHeader from src/vsixParser.ts: signature read and checked
against 0x04034b50 first. -/
def parseLocalHeader (utf8 : List Nat → String) (buf : List Nat)
    (offset : Nat) : Except ZipError ZipLocalHeader :=
  match readUInt32LE buf offset with
  | none => .error .rangeError
  | some signature =>
    if signature ≠ localSignature then .error (.invalidLocalSignature signature)
    else
      match readLocalFields utf8 buf offset signature with
      | none => .error .rangeError
      | some header => .ok header

/-- extractFile from src/vsixParser.ts: parse the Local File Header at the
entry offset, compute the data offset from that header, slice compressedSize
bytes, and dispatch on the compression method. inflateRaw is the zlib
raw-deflate collaborator passed explicitly; its error result models the
rejected promise of inflateData. -/
def extractFile (inflateRaw : List Nat → Except ZipError (List Nat))
    (utf8 : List Nat → String) (buf : List Nat)
    (entry : ZipCentralDirectory) : Except ZipError (List Nat) :=
  match parseLocalHeader utf8 buf entry.localHeaderOffset with
  | .error e => .error e
  | .ok localHeader =>
    let dataOffset := entry.localHeaderOffset + 30 +
      localHeader.fileNameLength + localHeader.extraFieldLength
    let compressedData := sliceBytes buf dataOffset
      (dataOffset + entry.compressedSize)
    if entry.compressionMethod = 0 then .ok compressedData
    else if entry.compressionMethod = 8 then inflateRaw compressedData
    else .error (.unsupportedCompressionMethod entry.compressionMethod)

/-- Witness data for C6: a 30-byte local header with empty name and extra
field followed by three stored data bytes, and a Central Directory entry
describing it with method 0 (store). -/
def demoBuf : List Nat :=
  [0x50, 0x4B, 0x03, 0x04, 0, 0, 0, 0, 0, 0, 0, 0, 0, 0, 0,
   0, 0, 0, 0, 0, 0, 0, 0, 0, 0, 0, 0, 0, 0, 0, 10, 20, 30]

def demoEntry : ZipCentralDirectory :=
  { signature := 0x02014b50, versionMadeBy := 0, versionNeeded := 20,
    flags := 0, compressionMethod := 0, modTime := 0, modDate := 0,
    crc32 := 0, compressedSize := 3, uncompressedSize := 3,
    fileNameLength := 8, extraFieldLength := 0, fileCommentLength := 0,
    diskStart := 0, internalAttributes := 0, externalAttributes := 0,
    localHeaderOffset := 0, fileName := "data.bin", extraField := [],
    fileComment := "" }

def demoLocalHeader : ZipLocalHeader :=
  { signature := 0x04034b50, versionNeeded := 0, flags := 0,
    compressionMethod := 0, modTime := 0, modDate := 0, crc32 := 0,
    compressedSize := 0, uncompressedSize := 0, fileNameLength := 0,
    extraFieldLength := 0, fileName := "", extraField := [] }

/-! ## Entry lookup and optional resource extraction (src/vsixParser.ts) -/

/-- The entry lookup of extractIcon: the first entry whose name is exactly
the requested path or exactly the path under the extension/ directory. -/
def findIconEntry (centralDirectory : List ZipCentralDirectory)
    (iconPath : String) : Option ZipCentralDirectory :=
  centralDirectory.find? (fun entry =>
    entry.fileName == iconPath || entry.fileName == "extension/" ++ iconPath)

/-- The entry lookup of extractPackageJson: the two fixed candidate names. -/
def findPackageJsonEntry (centralDirectory : List ZipCentralDirectory) :
    Option ZipCentralDirectory :=
  centralDirectory.find? (fun entry =>
    entry.fileName == "extension/package.json" ||
      entry.fileName == "package.json")

/-- The entry lookup of extractReadme: case-insensitive readme.md at the
root, under extension/, or nested one directory level. -/
def findReadmeEntry (centralDirectory : List ZipCentralDirectory) :
    Option ZipCentralDirectory :=
  centralDirectory.find? (fun entry =>
    let fileName := entry.fileName.toLower
    fileName == "readme.md" || fileName == "extension/readme.md" ||
      fileName.endsWith "/readme.md")

/-- The entry lookup of extractChangelog, with the changes.md variants. -/
def findChangelogEntry (centralDirectory : List ZipCentralDirectory) :
    Option ZipCentralDirectory :=
  centralDirectory.find? (fun entry =>
    let fileName := entry.fileName.toLower
    fileName == "changelog.md" || fileName == "extension/changelog.md" ||
      fileName.endsWith "/changelog.md" || fileName == "changes.md" ||
      fileName == "extension/changes.md")

/-- extractIcon from src/vsixParser.ts, for an already parsed central
directory: a missing entry yields null, and any extraction failure is
caught and turned into null. -/
def extractIcon (inflateRaw : List Nat → Except ZipError (List Nat))
    (utf8 : List Nat → String) (buf : List Nat)
    (centralDirectory : List ZipCentralDirectory) (iconPath : String) :
    Option (List Nat) :=
  match findIconEntry centralDirectory iconPath with
  | none => none
  | some iconEntry =>
    match extractFile inflateRaw utf8 buf iconEntry with
    | .ok bytes => some bytes
    | .error _ => none

/-- extractReadme from src/vsixParser.ts: the extracted bytes are decoded by
the utf8 collaborator (buffer.toString), failures are caught to null. -/
def extractReadme (inflateRaw : List Nat → Except ZipError (List Nat))
    (utf8 : List Nat → String) (buf : List Nat)
    (centralDirectory : List ZipCentralDirectory) : Option String :=
  match findReadmeEntry centralDirectory with
  | none => none
  | some readmeEntry =>
    match extractFile inflateRaw utf8 buf readmeEntry with
    | .ok bytes => some (utf8 bytes)
    | .error _ => none

/-- extractChangelog from src/vsixParser.ts. -/
def extractChangelog (inflateRaw : List Nat → Except ZipError (List Nat))
    (utf8 : List Nat → String) (buf : List Nat)
    (centralDirectory : List ZipCentralDirectory) : Option String :=
  match findChangelogEntry centralDirectory with
  | none => none
  | some changelogEntry =>
    match extractFile inflateRaw utf8 buf changelogEntry with
    | .ok bytes => some (utf8 bytes)
    | .error _ => none

/-- Witness data for C9: an archive whose only descriptor entry is named
extension/package.json. -/
def demoPkgEntry : ZipCentralDirectory :=
  { signature := 0x02014b50, versionMadeBy := 0, versionNeeded := 20,
    flags := 0, compressionMethod := 0, modTime := 0, modDate := 0,
    crc32 := 0, compressedSize := 2, uncompressedSize := 2,
    fileNameLength := 22, extraFieldLength := 0, fileCommentLength := 0,
    diskStart := 0, internalAttributes := 0, externalAttributes := 0,
    localHeaderOffset := 0, fileName := "extension/package.json",
    extraField := [], fileComment := "" }

/-! ## Theorems -/

theorem lexCmp_self (a : List Nat) : lexCmp a a = 0 := by
  induction a with
  | nil => rfl
  | cons x xs ih => simp [lexCmp, ih]

theorem lexCmp_swap (a b : List Nat) : lexCmp b a = -lexCmp a b := by
  induction a generalizing b with
  | nil => cases b <;> rfl
  | cons x xs ih =>
    cases b with
    | nil => rfl
    | cons y ys =>
      by_cases hxy : x > y
      · have h1 : ¬ y > x := by omega
        have h2 : y < x := by omega
        simp [lexCmp, hxy, h1, h2]
      · by_cases hyx : y > x
        · have h1 : ¬ x > y := by omega
          have h2 : ¬ y < x := by omega
          simp [lexCmp, hxy, hyx, h1, h2]
        · have hx : ¬ x < y := by omega
          have hy : ¬ y < x := by omega
          simp [lexCmp, hxy, hyx, hx, hy, ih]

theorem lexCmp_cases (a b : List Nat) :
    lexCmp a b = -1 ∨ lexCmp a b = 0 ∨ lexCmp a b = 1 := by
  induction a generalizing b with
  | nil => cases b <;> simp [lexCmp]
  | cons x xs ih =>
    cases b with
    | nil => simp [lexCmp]
    | cons y ys =>
      by_cases hxy : x > y
      · simp [lexCmp, hxy]
      · by_cases hyx : x < y
        · simp [lexCmp, hxy, hyx]
        · simpa [lexCmp, hxy, hyx] using ih ys

theorem lexCmp_eq_zero_iff (a b : List Nat) : lexCmp a b = 0 ↔ a = b := by
  induction a generalizing b with
  | nil => cases b <;> simp [lexCmp]
  | cons x xs ih =>
    cases b with
    | nil => simp [lexCmp]
    | cons y ys =>
      by_cases hxy : x > y
      · simp [lexCmp, hxy]
        omega
      · by_cases hyx : x < y
        · simp [lexCmp, hxy, hyx]
          omega
        · have : x = y := by omega
          simp [lexCmp, hxy, hyx, this, ih]

theorem lexCmp_trans_neg {a b c : List Nat}
    (hab : lexCmp a b = -1) (hbc : lexCmp b c = -1) : lexCmp a c = -1 := by
  induction a generalizing b c with
  | nil =>
    cases b with
    | nil => exact absurd hab (by simp [lexCmp])
    | cons y ys =>
      cases c with
      | nil => exact absurd hbc (by simp [lexCmp])
      | cons z zs => simp [lexCmp]
  | cons x xs ih =>
    cases b with
    | nil => exact absurd hab (by simp [lexCmp])
    | cons y ys =>
      cases c with
      | nil => exact absurd hbc (by simp [lexCmp])
      | cons z zs =>
        by_cases hxy : x > y
        · simp [lexCmp, hxy] at hab
        · by_cases hyz : y > z
          · simp [lexCmp, hyz] at hbc
          · by_cases hxylt : x < y
            · have h1 : ¬ x > z := by omega
              have h2 : x < z := by omega
              simp [lexCmp, h1, h2]
            · by_cases hyzlt : y < z
              · have h1 : ¬ x > z := by omega
                have h2 : x < z := by omega
                simp [lexCmp, h1, h2]
              · have h1 : ¬ x > z := by omega
                have h2 : ¬ x < z := by omega
                simp [lexCmp, hxy, hxylt] at hab
                simp [lexCmp, hyz, hyzlt] at hbc
                simp [lexCmp, h1, h2]
                exact ih hab hbc

theorem stripZeros_eq_nil_iff (l : List Nat) :
    stripZeros l = [] ↔ ∀ x ∈ l, x = 0 := by
  induction l with
  | nil => simp [stripZeros]
  | cons x xs ih =>
    constructor
    · intro h
      cases h2 : stripZeros xs with
      | nil =>
        have hx : x = 0 := by
          by_cases hx : x = 0
          · exact hx
          · simp [stripZeros, h2, hx] at h
        intro a ha
        rcases List.mem_cons.mp ha with rfl | ha
        · exact hx
        · exact ih.mp h2 a ha
      | cons y ys => simp [stripZeros, h2] at h
    · intro hall
      have h2 : stripZeros xs = [] :=
        ih.mpr (fun a ha => hall a (List.mem_cons_of_mem _ ha))
      have hx : x = 0 := hall x (List.mem_cons_self x xs)
      simp [stripZeros, h2, hx]

theorem cmpSegs_nil_left (b : List Nat) :
    cmpSegs [] b = if stripZeros b = [] then 0 else -1 := by
  by_cases h : stripZeros b = []
  · have hall := (stripZeros_eq_nil_iff b).mp h
    have : b.any (fun x => decide (x > 0)) = false := by
      simp only [List.any_eq_false, decide_eq_true_eq]
      intro x hx
      have := hall x hx
      omega
    simp [cmpSegs, this, h]
  · have hall := h
    rw [stripZeros_eq_nil_iff] at hall
    push_neg at hall
    obtain ⟨x, hx, hx0⟩ := hall
    have : b.any (fun x => decide (x > 0)) = true := by
      simp only [List.any_eq_true, decide_eq_true_eq]
      exact ⟨x, hx, by omega⟩
    simp [cmpSegs, this, h]

theorem cmpSegs_nil_right (a : List Nat) :
    cmpSegs a [] = if stripZeros a = [] then 0 else 1 := by
  induction a with
  | nil => simp [cmpSegs, stripZeros]
  | cons x xs ih =>
    by_cases hx : x > 0
    · have hx0 : ¬ x = 0 := by omega
      cases h : stripZeros xs <;> simp [cmpSegs, stripZeros, hx, hx0, h]
    · have hx0 : x = 0 := by omega
      cases h : stripZeros xs with
      | nil => simpa [cmpSegs, stripZeros, hx, hx0, h] using ih
      | cons y ys => simpa [cmpSegs, stripZeros, hx, hx0, h] using ih

theorem lexCmp_strip_cons (x y : Nat) (as bs : List Nat) :
    lexCmp (stripZeros (x :: as)) (stripZeros (y :: bs)) =
      if x > y then 1
      else if x < y then -1
      else lexCmp (stripZeros as) (stripZeros bs) := by
  cases h1 : stripZeros as with
  | nil =>
    cases h2 : stripZeros bs with
    | nil =>
      by_cases hx : x = 0 <;> by_cases hy : y = 0 <;>
        simp [stripZeros, h1, h2, hx, hy, lexCmp] <;> omega
    | cons z zs =>
      by_cases hx : x = 0 <;>
        simp [stripZeros, h1, h2, hx, lexCmp]
  | cons w ws =>
    cases h2 : stripZeros bs with
    | nil =>
      by_cases hy : y = 0 <;>
        simp [stripZeros, h1, h2, hy, lexCmp]
    | cons z zs =>
      simp [stripZeros, h1, h2, lexCmp]

theorem cmpSegs_eq_lexCmp (a b : List Nat) :
    cmpSegs a b = lexCmp (stripZeros a) (stripZeros b) := by
  induction a generalizing b with
  | nil =>
    rw [cmpSegs_nil_left]
    cases h : stripZeros b <;> simp [stripZeros, lexCmp, h]
  | cons x xs ih =>
    cases b with
    | nil =>
      rw [cmpSegs_nil_right]
      cases h : stripZeros (x :: xs) <;> simp [stripZeros, lexCmp, h]
    | cons y ys =>
      rw [lexCmp_strip_cons]
      simp only [cmpSegs]
      by_cases hxy : x > y
      · simp [hxy]
      · by_cases hyx : x < y
        · simp [hxy, hyx]
        · simp [hxy, hyx, ih]

/-- compareVersions expressed through the canonical form: lexicographic
comparison of the stripped segment lists, then the hyphen tie-break. -/
theorem compareVersions_eq_keyCmp (a b : String) :
    compareVersions a b =
      (if lexCmp (stripZeros (versionParts a)) (stripZeros (versionParts b)) ≠ 0
       then lexCmp (stripZeros (versionParts a)) (stripZeros (versionParts b))
       else if containsDash a && !containsDash b then -1
       else if !containsDash a && containsDash b then 1
       else 0) := by
  simp only [compareVersions, cmpSegs_eq_lexCmp]

theorem compareVersions_eq_zero_iff (a b : String) :
    compareVersions a b = 0 ↔
      (stripZeros (versionParts a) = stripZeros (versionParts b) ∧
       containsDash a = containsDash b) := by
  rw [compareVersions_eq_keyCmp]
  rcases lexCmp_cases (stripZeros (versionParts a)) (stripZeros (versionParts b))
    with h | h | h
  · have hne : ¬ stripZeros (versionParts a) = stripZeros (versionParts b) := by
      intro he
      rw [← lexCmp_eq_zero_iff] at he
      omega
    simp [h, hne]
  · have he := (lexCmp_eq_zero_iff _ _).mp h
    cases da : containsDash a <;> cases db : containsDash b <;>
      simp [h, he, da, db, lexCmp_self]
  · have hne : ¬ stripZeros (versionParts a) = stripZeros (versionParts b) := by
      intro he
      rw [← lexCmp_eq_zero_iff] at he
      omega
    simp [h, hne]

theorem compareVersions_lt_iff (a b : String) :
    compareVersions a b < 0 ↔
      (lexCmp (stripZeros (versionParts a)) (stripZeros (versionParts b)) = -1 ∨
       (stripZeros (versionParts a) = stripZeros (versionParts b) ∧
        containsDash a = true ∧ containsDash b = false)) := by
  rw [compareVersions_eq_keyCmp]
  rcases lexCmp_cases (stripZeros (versionParts a)) (stripZeros (versionParts b))
    with h | h | h
  · simp [h]
  · have he := (lexCmp_eq_zero_iff _ _).mp h
    cases da : containsDash a <;> cases db : containsDash b <;>
      simp [h, he, da, db, lexCmp_self]
  · have hne : ¬ stripZeros (versionParts a) = stripZeros (versionParts b) := by
      intro heq
      rw [← lexCmp_eq_zero_iff] at heq
      omega
    simp [h, hne]

theorem compareVersions_refl (v : String) : compareVersions v v = 0 := by
  rw [compareVersions_eq_keyCmp]
  cases h : containsDash v <;> simp [lexCmp_self, h]

theorem compareVersions_swap (a b : String) :
    compareVersions a b = -compareVersions b a := by
  rw [compareVersions_eq_keyCmp, compareVersions_eq_keyCmp]
  rw [lexCmp_swap (stripZeros (versionParts a)) (stripZeros (versionParts b))]
  rcases lexCmp_cases (stripZeros (versionParts a)) (stripZeros (versionParts b))
    with h | h | h
  · simp [h]
  · cases da : containsDash a <;> cases db : containsDash b <;> simp [h, da, db]
  · simp [h]

theorem compareVersions_trans_lt {a b c : String}
    (hab : compareVersions a b < 0) (hbc : compareVersions b c < 0) :
    compareVersions a c < 0 := by
  rw [compareVersions_lt_iff] at hab hbc ⊢
  rcases hab with hab | ⟨heab, hda, hdb⟩
  · rcases hbc with hbc | ⟨hebc, hdb, hdc⟩
    · exact Or.inl (lexCmp_trans_neg hab hbc)
    · exact Or.inl (hebc ▸ hab)
  · rcases hbc with hbc | ⟨hebc, hdb', hdc⟩
    · exact Or.inl (heab ▸ hbc)
    · exact absurd hdb' (by simp [hdb])

/-- compareVersions is fully determined by the stripped segment list and the
hyphen flag of each operand. -/
theorem compareVersions_congr_left {a b : String}
    (hs : stripZeros (versionParts a) = stripZeros (versionParts b))
    (hd : containsDash a = containsDash b) (c : String) :
    compareVersions a c = compareVersions b c := by
  rw [compareVersions_eq_keyCmp, compareVersions_eq_keyCmp, hs, hd]

theorem compareVersions_cases (a b : String) :
    compareVersions a b = -1 ∨ compareVersions a b = 0 ∨
      compareVersions a b = 1 := by
  rw [compareVersions_eq_keyCmp]
  rcases lexCmp_cases (stripZeros (versionParts a)) (stripZeros (versionParts b))
    with h | h | h
  · simp [h]
  · cases da : containsDash a <;> cases db : containsDash b <;> simp [h, da, db]
  · simp [h]

theorem compareVersions_trans_le_lt {a b c : String}
    (hab : compareVersions a b ≤ 0) (hbc : compareVersions b c < 0) :
    compareVersions a c < 0 := by
  rcases compareVersions_cases a b with h | h | h
  · exact compareVersions_trans_lt (by omega) hbc
  · have he := (compareVersions_eq_zero_iff a b).mp h
    rw [compareVersions_congr_left he.1 he.2 c]
    exact hbc
  · omega

/-- Strict improvement composed with a non-strict bound stays strict: used by
the deduplication fold when a record replaces the stored maximum. -/
theorem compareVersions_gt_of_gt_of_ge {e o x : String}
    (h1 : compareVersions e o > 0) (h2 : compareVersions o x ≥ 0) :
    compareVersions e x > 0 := by
  have hxo : compareVersions x o ≤ 0 := by
    have := compareVersions_swap o x
    omega
  have hoe : compareVersions o e < 0 := by
    have := compareVersions_swap e o
    omega
  have hxe : compareVersions x e < 0 := compareVersions_trans_le_lt hxo hoe
  have := compareVersions_swap e x
  omega

/-- C2: compareVersions is a total order on version strings: reflexively
zero, results of the two argument orders are sign-opposites, the induced
strict order is transitive, and the three concrete facts hold: 1.2.0 is less
than 1.10.0 (numeric, not lexical, segment comparison), 1.0.0-beta is less
than 1.0.0, and 1.0 equals 1.0.0 (missing trailing segments treated as 0). -/
theorem C2_compareVersions_total_order :
    (∀ v, compareVersions v v = 0) ∧
    (∀ a b, compareVersions a b = -compareVersions b a) ∧
    (∀ a b c, compareVersions a b < 0 → compareVersions b c < 0 →
      compareVersions a c < 0) ∧
    compareVersions "1.2.0" "1.10.0" < 0 ∧
    compareVersions "1.0.0-beta" "1.0.0" < 0 ∧
    compareVersions "1.0" "1.0.0" = 0 :=
  ⟨compareVersions_refl, compareVersions_swap,
   fun _ _ _ => compareVersions_trans_lt, by decide, by decide, by decide⟩

/-- Witness for C2: the transitivity component applied at concrete inputs. -/
theorem C2_witness : compareVersions "1.0" "2.0" < 0 :=
  C2_compareVersions_total_order.2.2.1 "1.0" "1.5" "2.0" (by decide) (by decide)

/-- C3 counterexample: the claim states that build metadata is stripped
before the prerelease tie-break so that compareVersions of 1.0.0+build-1 and
1.0.0 is 0; in the code the tie-break tests includes(hyphen) on the full
original string, so the hyphen inside the build metadata is treated as a
prerelease marker and the result is -1, not 0. -/
theorem C3_counterexample :
    compareVersions "1.0.0+build-1" "1.0.0" = -1 ∧
    ¬ (compareVersions "1.0.0+build-1" "1.0.0" = 0) := by decide

/-- C3 amended: the core comparison does strip build metadata, but the
prerelease tie-break tests for a hyphen anywhere in the full original
strings. For versions with equal cores the result is 0 exactly when both or
neither original string contains a hyphen; since a hyphen inside build
metadata counts, compareVersions of 1.0.0+build-1 and 1.0.0 is -1. -/
theorem C3_amended_dash_tiebreak :
    (∀ a b, cmpSegs (versionParts a) (versionParts b) = 0 →
      (compareVersions a b = 0 ↔ containsDash a = containsDash b)) ∧
    compareVersions "1.0.0+build-1" "1.0.0" = -1 := by
  constructor
  · intro a b h
    rw [compareVersions_eq_zero_iff]
    rw [cmpSegs_eq_lexCmp, lexCmp_eq_zero_iff] at h
    simp [h]
  · decide

/-- Witness for the amended C3: applied at a concrete pair with equal cores
and no hyphen on either side (build metadata without a hyphen compares
equal). -/
theorem C3_witness : compareVersions "1.0.0+build" "1.0.0" = 0 :=
  (C3_amended_dash_tiebreak.1 "1.0.0+build" "1.0.0" (by decide)).mpr (by decide)

/-- In a list with pairwise distinct mapped ids, two members with equal id
are equal. -/
theorem nodup_ids_inj {l : List ExtensionInfo}
    (h : (l.map (fun e => e.id)).Nodup) {a b : ExtensionInfo}
    (ha : a ∈ l) (hb : b ∈ l) (hid : a.id = b.id) : a = b := by
  induction l with
  | nil => cases ha
  | cons x xs ih =>
    rw [List.map_cons, List.nodup_cons] at h
    rcases List.mem_cons.mp ha with rfl | ha' <;>
      rcases List.mem_cons.mp hb with rfl | hb'
    · rfl
    · exact absurd (hid ▸ List.mem_map_of_mem (fun e => e.id) hb') h.1
    · exact absurd (hid ▸ List.mem_map_of_mem (fun e => e.id) ha') h.1
    · exact ih h.2 ha' hb'

theorem dedupInsert_inv {processed acc : List ExtensionInfo}
    (ext : ExtensionInfo) (h : DedupInv processed acc) :
    DedupInv (processed ++ [ext]) (dedupInsert acc ext) := by
  obtain ⟨hnodup, hfirst, hcover, hmax⟩ := h
  unfold dedupInsert
  cases hf : acc.find? (fun e => e.id == ext.id) with
  | none =>
    have hnone : ∀ e ∈ acc, ¬ e.id = ext.id := by
      intro e he
      have := List.find?_eq_none.mp hf e he
      simpa using this
    refine ⟨?_, ?_, ?_, ?_⟩
    · rw [List.map_append]
      refine List.Nodup.append hnodup (by simp) ?_
      intro s hs ht
      simp only [List.map_cons, List.map_nil, List.mem_singleton] at ht
      obtain ⟨e, he, rfl⟩ := List.mem_map.mp hs
      exact hnone e he ht
    · intro e he
      rcases List.mem_append.mp he with he' | he'
      · obtain ⟨p, q, hpq, hp⟩ := hfirst e he'
        exact ⟨p, q ++ [ext], by rw [hpq]; simp, hp⟩
      · have he0 : e = ext := by simpa using he'
        rw [he0]
        refine ⟨processed, [], by simp, ?_⟩
        intro x hx hxid
        obtain ⟨el, hel, helid⟩ := hcover x hx
        exact absurd (helid.trans hxid) (hnone el hel)
    · intro x hx
      rcases List.mem_append.mp hx with hx' | hx'
      · obtain ⟨e, he, heid⟩ := hcover x hx'
        exact ⟨e, List.mem_append_left _ he, heid⟩
      · have hx0 : x = ext := by simpa using hx'
        exact ⟨ext, List.mem_append_right _ (by simp), by rw [hx0]⟩
    · intro e he x hx hxid
      rcases List.mem_append.mp he with he' | he' <;>
        rcases List.mem_append.mp hx with hx' | hx'
      · exact hmax e he' x hx' hxid
      · have hx0 : x = ext := by simpa using hx'
        rw [hx0] at hxid
        exact absurd hxid.symm (hnone e he')
      · have he0 : e = ext := by simpa using he'
        rw [he0] at hxid
        obtain ⟨el, hel, helid⟩ := hcover x hx'
        exact absurd (helid.trans hxid) (hnone el hel)
      · have hx0 : x = ext := by simpa using hx'
        have he0 : e = ext := by simpa using he'
        rw [hx0, he0]
        simp [compareVersions_refl]
  | some existing =>
    have hexid : existing.id = ext.id := by
      have := List.find?_some hf
      simpa using this
    have hexmem : existing ∈ acc := List.mem_of_find?_eq_some hf
    have huniq : ∀ e ∈ acc, e.id = ext.id → e = existing := by
      intro e he heid
      exact nodup_ids_inj hnodup he hexmem (heid.trans hexid.symm)
    by_cases hcmp : compareVersions ext.version existing.version > 0
    · have hfid : ∀ e ∈ acc,
          ((fun e => if e.id == ext.id then ext else e) e).id = e.id := by
        intro e he
        by_cases hb : e.id = ext.id
        · simp [hb]
        · simp [hb]
      have hids : ((acc.map (fun e => if e.id == ext.id then ext else e)).map
          (fun e => e.id)) = acc.map (fun e => e.id) := by
        rw [List.map_map]
        exact List.map_congr_left hfid
      simp only [hcmp, if_pos]
      refine ⟨?_, ?_, ?_, ?_⟩
      · rw [hids]; exact hnodup
      · intro e' he'
        obtain ⟨e, he, hfe⟩ := List.mem_map.mp he'
        by_cases hb : e.id = ext.id
        · have he0 : e' = ext := by rw [← hfe]; simp [hb]
          rw [he0]
          refine ⟨processed, [], by simp, ?_⟩
          intro x hx hxid
          have hge : compareVersions existing.version x.version ≥ 0 :=
            hmax existing hexmem x hx (hxid.trans hexid.symm)
          exact compareVersions_gt_of_gt_of_ge hcmp hge
        · have he0 : e' = e := by rw [← hfe]; simp [hb]
          rw [he0]
          obtain ⟨p, q, hpq, hp⟩ := hfirst e he
          exact ⟨p, q ++ [ext], by rw [hpq]; simp, hp⟩
      · intro x hx
        rcases List.mem_append.mp hx with hx' | hx'
        · obtain ⟨e, he, heid⟩ := hcover x hx'
          refine ⟨(fun e => if e.id == ext.id then ext else e) e,
            List.mem_map_of_mem _ he, ?_⟩
          rw [hfid e he]
          exact heid
        · have hx0 : x = ext := by simpa using hx'
          refine ⟨ext, ?_, by rw [hx0]⟩
          exact List.mem_map.mpr ⟨existing, hexmem, by simp [hexid]⟩
      · intro e' he' x hx hxid
        obtain ⟨e, he, hfe⟩ := List.mem_map.mp he'
        by_cases hb : e.id = ext.id
        · have he0 : e' = ext := by rw [← hfe]; simp [hb]
          rcases List.mem_append.mp hx with hx' | hx'
          · have hge : compareVersions existing.version x.version ≥ 0 := by
              refine hmax existing hexmem x hx' ?_
              rw [hxid, he0, hexid]
            have := compareVersions_gt_of_gt_of_ge hcmp hge
            rw [he0]
            omega
          · have hx0 : x = ext := by simpa using hx'
            rw [he0, hx0]
            simp [compareVersions_refl]
        · have he0 : e' = e := by rw [← hfe]; simp [hb]
          rcases List.mem_append.mp hx with hx' | hx'
          · rw [he0]
            refine hmax e he x hx' ?_
            rw [hxid, he0]
          · have hx0 : x = ext := by simpa using hx'
            rw [he0] at hxid
            rw [hx0] at hxid
            exact absurd hxid.symm hb
    · simp only [hcmp, if_neg, ite_false]
      refine ⟨hnodup, ?_, ?_, ?_⟩
      · intro e he
        obtain ⟨p, q, hpq, hp⟩ := hfirst e he
        exact ⟨p, q ++ [ext], by rw [hpq]; simp, hp⟩
      · intro x hx
        rcases List.mem_append.mp hx with hx' | hx'
        · exact hcover x hx'
        · have hx0 : x = ext := by simpa using hx'
          rw [hx0]
          exact ⟨existing, hexmem, hexid⟩
      · intro e he x hx hxid
        rcases List.mem_append.mp hx with hx' | hx'
        · exact hmax e he x hx' hxid
        · have hx0 : x = ext := by simpa using hx'
          have he0 : e = existing := by
            refine huniq e he ?_
            rw [← hx0, hxid]
          rw [he0, hx0]
          have := compareVersions_swap ext.version existing.version
          omega

theorem foldl_dedupInsert_inv :
    ∀ (l processed acc : List ExtensionInfo), DedupInv processed acc →
      DedupInv (processed ++ l) (l.foldl dedupInsert acc)
  | [], _, _, h => by simpa using h
  | e :: es, processed, acc, h => by
    have h2 := foldl_dedupInsert_inv es (processed ++ [e]) (dedupInsert acc e)
      (dedupInsert_inv e h)
    simpa [List.append_assoc] using h2

theorem deduplicateExtensions_inv (l : List ExtensionInfo) :
    DedupInv l (deduplicateExtensions l) := by
  have h0 : DedupInv [] [] := ⟨by simp, by simp, by simp, by simp⟩
  simpa using foldl_dedupInsert_inv l [] [] h0

/-- C7: across a batch, deduplication keeps exactly one record per distinct
id (ids in the output are pairwise distinct and every input id is covered);
the kept record is an occurrence from the input whose version is greater or
equal, per compareVersions, than every same-id input record, and strictly
greater than every same-id record encountered before it (so version ties
keep the first encountered); concretely, for two same-id records whose
versions compare strictly, the greater one is kept regardless of encounter
order. -/
theorem C7_deduplication_keeps_max :
    (∀ l : List ExtensionInfo,
      ((deduplicateExtensions l).map (fun e => e.id)).Nodup) ∧
    (∀ (l : List ExtensionInfo) (x : ExtensionInfo), x ∈ l →
      ∃ e ∈ deduplicateExtensions l, e.id = x.id) ∧
    (∀ (l : List ExtensionInfo) (e : ExtensionInfo),
      e ∈ deduplicateExtensions l → ∃ p q, l = p ++ e :: q ∧
        ∀ x ∈ p, x.id = e.id → compareVersions e.version x.version > 0) ∧
    (∀ (l : List ExtensionInfo) (e x : ExtensionInfo),
      e ∈ deduplicateExtensions l → x ∈ l → x.id = e.id →
        compareVersions e.version x.version ≥ 0) ∧
    (∀ a b : ExtensionInfo, a.id = b.id →
      compareVersions a.version b.version > 0 →
      deduplicateExtensions [b, a] = [a] ∧
        deduplicateExtensions [a, b] = [a]) := by
  refine ⟨?_, ?_, ?_, ?_, ?_⟩
  · intro l
    exact (deduplicateExtensions_inv l).1
  · intro l x hx
    exact (deduplicateExtensions_inv l).2.2.1 x hx
  · intro l e he
    exact (deduplicateExtensions_inv l).2.1 e he
  · intro l e x he hx hxid
    exact (deduplicateExtensions_inv l).2.2.2 e he x hx hxid
  · intro a b hid hgt
    have hbeq : (b.id == a.id) = true := beq_iff_eq.mpr hid.symm
    have hba : ¬ compareVersions b.version a.version > 0 := by
      have := compareVersions_swap a.version b.version
      omega
    constructor
    · simp [deduplicateExtensions, dedupInsert, hbeq, hgt, hid.symm]
    · have haeq : (a.id == b.id) = true := beq_iff_eq.mpr hid
      simp [deduplicateExtensions, dedupInsert, haeq, hba]

/-- Witness for C7: the 1.1.0 record is kept in both encounter orders. -/
theorem C7_witness :
    deduplicateExtensions [extOne, extTwo] = [extTwo] ∧
    deduplicateExtensions [extTwo, extOne] = [extTwo] :=
  C7_deduplication_keeps_max.2.2.2.2 extTwo extOne rfl (by decide)

theorem strData_append : ∀ a b : String, (a ++ b).data = a.data ++ b.data
  | ⟨_⟩, ⟨_⟩ => rfl

theorem append_dot_append_ne_empty (a b : String) : a ++ "." ++ b ≠ "" := by
  intro h
  have hd := congrArg String.data h
  rw [strData_append, strData_append] at hd
  have h1 : (".").data = ['.'] := rfl
  have h2 : ("").data = ([] : List Char) := rfl
  rw [h1, h2] at hd
  simp at hd

/-- C1: when the manifest carries an Identity with non-empty Id, Version and
Publisher, the merged record takes id Publisher.Id, version and publisher
from the manifest identity, regardless of the descriptor contents. -/
theorem C1_manifest_identity_priority
    (m : VsixManifest) (p : Option VsixPackageJson)
    (metadata : MetadataElem) (ident : IdentityAttr)
    (hm : m.PackageManifest.Metadata.head? = some metadata)
    (hi : metadata.Identity.head? = some ident)
    (hId : ident.Id ≠ "") (hV : ident.Version ≠ "") (hP : ident.Publisher ≠ "") :
    (extractExtensionDataWithManifestPriority (some m) p).id =
        ident.Publisher ++ "." ++ ident.Id ∧
    (extractExtensionDataWithManifestPriority (some m) p).version = ident.Version ∧
    (extractExtensionDataWithManifestPriority (some m) p).publisher
        = ident.Publisher := by
  have hne : ident.Publisher ++ "." ++ ident.Id ≠ "" :=
    append_dot_append_ne_empty ident.Publisher ident.Id
  cases hInst : m.PackageManifest.Installation.head? with
  | none =>
    refine ⟨?_, ?_, ?_⟩ <;>
      simp [extractExtensionDataWithManifestPriority, extractManifestData,
        hm, hi, hInst, jsOrStrD, strTruthy, hne, hV, hP]
  | some inst =>
    refine ⟨?_, ?_, ?_⟩ <;>
      simp [extractExtensionDataWithManifestPriority, extractManifestData,
        hm, hi, hInst, jsOrStrD, strTruthy, hne, hV, hP]

theorem C1_witness :
    (extractExtensionDataWithManifestPriority (some demoManifest)
      (some conflictingDescriptor)).id = "acme.foo" ∧
    (extractExtensionDataWithManifestPriority (some demoManifest)
      (some conflictingDescriptor)).version = "2.0.0" ∧
    (extractExtensionDataWithManifestPriority (some demoManifest)
      (some conflictingDescriptor)).publisher = "acme" :=
  C1_manifest_identity_priority demoManifest (some conflictingDescriptor)
    demoMetadata demoIdentity rfl rfl (by decide) (by decide) (by decide)

/-- C4: the merged record is accepted exactly when id, version and publisher
are all non-empty after the merge; an accepted record is the merge result
unchanged; and with neither document present reconciliation fails with the
MissingRequiredFields condition (modelled as none). -/
theorem C4_missing_required_fields :
    (∀ m p, (reconcile m p).isSome = true ↔
      ((extractExtensionDataWithManifestPriority m p).id ≠ "" ∧
       (extractExtensionDataWithManifestPriority m p).version ≠ "" ∧
       (extractExtensionDataWithManifestPriority m p).publisher ≠ "")) ∧
    (∀ m p r, reconcile m p = some r →
      r = extractExtensionDataWithManifestPriority m p) ∧
    reconcile none none = none := by
  refine ⟨?_, ?_, by decide⟩
  · intro m p
    by_cases h : (extractExtensionDataWithManifestPriority m p).id = "" ∨
        (extractExtensionDataWithManifestPriority m p).version = "" ∨
        (extractExtensionDataWithManifestPriority m p).publisher = ""
    · simp [reconcile, h]
      tauto
    · simp [reconcile, h]
      tauto
  · intro m p r h
    simp only [reconcile] at h
    split at h
    · cases h
    · exact (Option.some.injEq _ _ ▸ h).symm

/-- Witness for C4: the acceptance characterization applied to the concrete
descriptor-only archive. -/
theorem C4_witness : (reconcile none (some demoDescriptor)).isSome = true :=
  (C4_missing_required_fields.1 none (some demoDescriptor)).mpr
    ⟨by decide, by decide, by decide⟩

/-- C8: with no manifest the merged record carries the descriptor fields
through unchanged, the manifest-only fields (tags, galleryFlags,
targetPlatforms, language) are absent, and the concrete descriptor
name foo, publisher acme, version 1.2.3 without displayName reconciles to
id acme.foo, version 1.2.3, title foo. -/
theorem C8_descriptor_only :
    (∀ pj : VsixPackageJson,
      (extractExtensionDataWithManifestPriority none (some pj)).tags = none ∧
      (extractExtensionDataWithManifestPriority none (some pj)).galleryFlags = none ∧
      (extractExtensionDataWithManifestPriority none (some pj)).targetPlatforms = none ∧
      (extractExtensionDataWithManifestPriority none (some pj)).language = none ∧
      (extractExtensionDataWithManifestPriority none (some pj)).version = pj.version ∧
      (extractExtensionDataWithManifestPriority none (some pj)).publisher = pj.publisher ∧
      (extractExtensionDataWithManifestPriority none (some pj)).categories = pj.categories ∧
      (extractExtensionDataWithManifestPriority none (some pj)).keywords = pj.keywords ∧
      (extractExtensionDataWithManifestPriority none (some pj)).engines = pj.engines ∧
      (extractExtensionDataWithManifestPriority none (some pj)).activationEvents
        = pj.activationEvents ∧
      (extractExtensionDataWithManifestPriority none (some pj)).main = pj.main ∧
      (extractExtensionDataWithManifestPriority none (some pj)).preview = pj.preview ∧
      (extractExtensionDataWithManifestPriority none (some pj)).galleryBanner
        = pj.galleryBanner ∧
      (extractExtensionDataWithManifestPriority none (some pj)).homepage = pj.homepage ∧
      (extractExtensionDataWithManifestPriority none (some pj)).license = pj.license) ∧
    (reconcile none (some demoDescriptor)).map
      (fun r => (r.id, r.version, r.title)) =
      some ("acme.foo", "1.2.3", "foo") := by
  constructor
  · intro pj
    refine ⟨?_, ?_, ?_, ?_, ?_, ?_, ?_, ?_, ?_, ?_, ?_, ?_, ?_, ?_, ?_⟩ <;>
      simp [extractExtensionDataWithManifestPriority, extractManifestData,
        extractPackageData, jsOrStrD, jsOrStr, jsOrObj, strTruthy] <;>
      first
        | rfl
        | (by_cases h : pj.version = "" <;> simp [h])
        | (by_cases h : pj.publisher = "" <;> simp [h])
        | (cases h : pj.engines <;> simp [h])
  · decide

theorem scanForEocd_none_iff (buf : List Nat) (i : Nat) :
    scanForEocd buf i = none ↔
      ∀ j, j ≤ i → readUInt32LE buf j ≠ some eocdSignature := by
  induction i with
  | zero =>
    constructor
    · intro h j hj
      have hj0 : j = 0 := Nat.le_zero.mp hj
      subst hj0
      intro hr
      simp [scanForEocd, hr] at h
    · intro h
      have := h 0 (Nat.le_refl 0)
      simp [scanForEocd, this]
  | succ i ih =>
    constructor
    · intro h j hj
      by_cases hr : readUInt32LE buf (i+1) = some eocdSignature
      · simp [scanForEocd, hr] at h
      · simp only [scanForEocd, if_neg hr] at h
        rcases Nat.lt_or_ge j (i+1) with hlt | hge
        · exact ih.mp h j (by omega)
        · have hj1 : j = i + 1 := by omega
          subst hj1
          exact hr
    · intro h
      have h1 : readUInt32LE buf (i+1) ≠ some eocdSignature :=
        h (i+1) (Nat.le_refl _)
      simp only [scanForEocd, if_neg h1]
      exact ih.mpr (fun j hj => h j (by omega))

theorem scanForEocd_some (buf : List Nat) (i r : Nat)
    (h : scanForEocd buf i = some r) :
    readUInt32LE buf r = some eocdSignature ∧ r ≤ i ∧
      ∀ j, r < j → j ≤ i → readUInt32LE buf j ≠ some eocdSignature := by
  induction i with
  | zero =>
    by_cases hr : readUInt32LE buf 0 = some eocdSignature
    · simp [scanForEocd, hr] at h
      subst h
      exact ⟨hr, Nat.le_refl 0, fun j hj1 hj2 => by omega⟩
    · simp [scanForEocd, hr] at h
  | succ i ih =>
    by_cases hr : readUInt32LE buf (i+1) = some eocdSignature
    · simp [scanForEocd, hr] at h
      subst h
      exact ⟨hr, Nat.le_refl _, fun j hj1 hj2 => by omega⟩
    · simp only [scanForEocd, if_neg hr] at h
      obtain ⟨h1, h2, h3⟩ := ih h
      refine ⟨h1, by omega, ?_⟩
      intro j hj1 hj2
      rcases Nat.lt_or_ge j (i+1) with hlt | hge
      · exact h3 j hj1 (by omega)
      · have hj3 : j = i + 1 := by omega
        subst hj3
        exact hr

theorem findEocdOffset_none_iff (buf : List Nat) :
    findEocdOffset buf = none ↔
      ∀ i, i + 22 ≤ buf.length → readUInt32LE buf i ≠ some eocdSignature := by
  unfold findEocdOffset
  by_cases hlen : buf.length < 22
  · rw [if_pos hlen]
    constructor
    · intro _ i hi
      exact absurd hi (by omega)
    · intro _
      rfl
  · rw [if_neg hlen]
    rw [scanForEocd_none_iff]
    constructor
    · intro h i hi
      exact h i (by omega)
    · intro h j hj
      exact h j (by omega)

theorem findEocdOffset_some (buf : List Nat) (off : Nat)
    (h : findEocdOffset buf = some off) :
    readUInt32LE buf off = some eocdSignature ∧ off + 22 ≤ buf.length ∧
      ∀ j, off < j → j + 22 ≤ buf.length →
        readUInt32LE buf j ≠ some eocdSignature := by
  unfold findEocdOffset at h
  by_cases hlen : buf.length < 22
  · rw [if_pos hlen] at h
    cases h
  · rw [if_neg hlen] at h
    obtain ⟨h1, h2, h3⟩ := scanForEocd_some buf (buf.length - 22) off h
    exact ⟨h1, by omega, fun j hj1 hj2 => h3 j hj1 (by omega)⟩

theorem readCDFields_signature (utf8 : List Nat → String) (buf : List Nat)
    (offset sig : Nat) (e : ZipCentralDirectory)
    (h : readCDFields utf8 buf offset sig = some e) : e.signature = sig := by
  unfold readCDFields at h
  split at h
  · cases h
    rfl
  · cases h

theorem parseCentralDirectoryEntry_bad_signature (utf8 : List Nat → String)
    (buf : List Nat) (off s : Nat) (hr : readUInt32LE buf off = some s)
    (hs : s ≠ cdSignature) :
    parseCentralDirectoryEntry utf8 buf off =
      .error (.invalidCentralDirectorySignature s) := by
  simp only [parseCentralDirectoryEntry, hr]
  rw [if_pos hs]

theorem parseCentralDirectoryEntry_ok_signature (utf8 : List Nat → String)
    (buf : List Nat) (offset : Nat) (e : ZipCentralDirectory)
    (h : parseCentralDirectoryEntry utf8 buf offset = .ok e) :
    e.signature = cdSignature := by
  cases hr : readUInt32LE buf offset with
  | none => simp [parseCentralDirectoryEntry, hr] at h
  | some signature =>
    by_cases hs : signature = cdSignature
    · have hcond : ¬ (signature ≠ cdSignature) := fun hc => hc hs
      simp only [parseCentralDirectoryEntry, hr, if_neg hcond] at h
      cases hf : readCDFields utf8 buf offset signature with
      | none => simp [hf] at h
      | some entry =>
        simp only [hf, Except.ok.injEq] at h
        rw [← h]
        exact (readCDFields_signature utf8 buf offset signature entry hf).trans hs
    · simp [parseCentralDirectoryEntry, hr, if_pos hs] at h

theorem parseCDEntries_ok (utf8 : List Nat → String) (buf : List Nat) :
    ∀ (n off : Nat) (entries : List ZipCentralDirectory),
      parseCDEntries utf8 buf n off = .ok entries →
      entries.length = n ∧ cdChain utf8 buf off entries := by
  intro n
  induction n with
  | zero =>
    intro off entries h
    simp only [parseCDEntries, Except.ok.injEq] at h
    rw [← h]
    exact ⟨rfl, trivial⟩
  | succ n ih =>
    intro off entries h
    cases he : parseCentralDirectoryEntry utf8 buf off with
    | error e => simp [parseCDEntries, he] at h
    | ok entry =>
      simp only [parseCDEntries, he] at h
      cases hr : parseCDEntries utf8 buf n (off + entrySize entry) with
      | error e2 => simp [hr] at h
      | ok rest =>
        simp only [hr, Except.ok.injEq] at h
        rw [← h]
        obtain ⟨hl, hc⟩ := ih (off + entrySize entry) rest hr
        exact ⟨by simp [hl], he, hc⟩

theorem cdChain_signature (utf8 : List Nat → String) (buf : List Nat) :
    ∀ (off : Nat) (entries : List ZipCentralDirectory),
      cdChain utf8 buf off entries → ∀ e ∈ entries, e.signature = cdSignature := by
  intro off entries
  induction entries generalizing off with
  | nil =>
    intro _ e he
    cases he
  | cons x xs ih =>
    intro h e he
    rcases List.mem_cons.mp he with rfl | he'
    · exact parseCentralDirectoryEntry_ok_signature utf8 buf off e h.1
    · exact ih (off + entrySize x) h.2 e he'

/-- C5: archive loading locates the EOCD record by scanning backward for
signature 0x06054b50 and fails with the eocdNotFound condition when no such
signature exists (total function, never a crash or a silent empty index);
the Central Directory walk starts at the offset recorded in the EOCD,
requires every entry to begin with signature 0x02014b50 (failing otherwise),
advances past name, extra field and comment by their length fields, and on
success produces exactly totalEntries entries in on-disk order. -/
theorem C5_central_directory_parse :
    (∀ (utf8 : List Nat → String) (buf : List Nat),
      (∀ i, i + 22 ≤ buf.length → readUInt32LE buf i ≠ some eocdSignature) →
      parseCentralDirectory utf8 buf = .error .eocdNotFound) ∧
    (∀ (buf : List Nat) (off : Nat), findEocdOffset buf = some off →
      readUInt32LE buf off = some eocdSignature ∧ off + 22 ≤ buf.length ∧
      ∀ j, off < j → j + 22 ≤ buf.length →
        readUInt32LE buf j ≠ some eocdSignature) ∧
    (∀ (utf8 : List Nat → String) (buf : List Nat) (off s : Nat),
      readUInt32LE buf off = some s → s ≠ cdSignature →
      parseCentralDirectoryEntry utf8 buf off =
        .error (.invalidCentralDirectorySignature s)) ∧
    (∀ (utf8 : List Nat → String) (buf : List Nat)
      (entries : List ZipCentralDirectory),
      parseCentralDirectory utf8 buf = .ok entries →
      ∃ eocdOffset totalEntries centralDirOffset,
        findEocdOffset buf = some eocdOffset ∧
        readUInt16LE buf (eocdOffset + 10) = some totalEntries ∧
        readUInt32LE buf (eocdOffset + 16) = some centralDirOffset ∧
        entries.length = totalEntries ∧
        cdChain utf8 buf centralDirOffset entries ∧
        ∀ e ∈ entries, e.signature = cdSignature) := by
  refine ⟨?_, findEocdOffset_some, parseCentralDirectoryEntry_bad_signature, ?_⟩
  · intro utf8 buf h
    unfold parseCentralDirectory
    rw [(findEocdOffset_none_iff buf).mpr h]
  · intro utf8 buf entries h
    simp only [parseCentralDirectory] at h
    cases hf : findEocdOffset buf with
    | none => simp [hf] at h
    | some eocdOffset =>
      simp only [hf] at h
      cases h10 : readUInt16LE buf (eocdOffset + 10) with
      | none => simp [h10] at h
      | some totalEntries =>
        simp only [h10] at h
        cases h12 : readUInt32LE buf (eocdOffset + 12) with
        | none => simp [h12] at h
        | some csize =>
          simp only [h12] at h
          cases h16 : readUInt32LE buf (eocdOffset + 16) with
          | none => simp [h16] at h
          | some centralDirOffset =>
            simp only [h16] at h
            obtain ⟨hlen, hchain⟩ :=
              parseCDEntries_ok utf8 buf totalEntries centralDirOffset entries h
            exact ⟨eocdOffset, totalEntries, centralDirOffset, rfl, h10, h16,
              hlen, hchain,
              cdChain_signature utf8 buf centralDirOffset entries hchain⟩

/-- Witness for C5: the empty buffer has no EOCD signature, so parsing fails
with eocdNotFound. -/
theorem C5_witness :
    parseCentralDirectory (fun _ => "") [] = .error .eocdNotFound := by
  refine C5_central_directory_parse.1 (fun _ => "") [] ?_
  intro i hi
  exact absurd hi (by simp)

theorem readLocalFields_spec (utf8 : List Nat → String) (buf : List Nat)
    (offset sig : Nat) (lh : ZipLocalHeader)
    (h : readLocalFields utf8 buf offset sig = some lh) :
    lh.signature = sig ∧
      readUInt16LE buf (offset + 26) = some lh.fileNameLength ∧
      readUInt16LE buf (offset + 28) = some lh.extraFieldLength := by
  unfold readLocalFields at h
  split at h
  · cases h
    refine ⟨rfl, ?_, ?_⟩ <;> assumption
  · cases h

theorem parseLocalHeader_bad_signature (utf8 : List Nat → String)
    (buf : List Nat) (off s : Nat) (hr : readUInt32LE buf off = some s)
    (hs : s ≠ localSignature) :
    parseLocalHeader utf8 buf off = .error (.invalidLocalSignature s) := by
  simp only [parseLocalHeader, hr]
  rw [if_pos hs]

theorem parseLocalHeader_ok_spec (utf8 : List Nat → String) (buf : List Nat)
    (off : Nat) (lh : ZipLocalHeader)
    (h : parseLocalHeader utf8 buf off = .ok lh) :
    lh.signature = localSignature ∧
      readUInt16LE buf (off + 26) = some lh.fileNameLength ∧
      readUInt16LE buf (off + 28) = some lh.extraFieldLength := by
  cases hr : readUInt32LE buf off with
  | none => simp [parseLocalHeader, hr] at h
  | some s =>
    by_cases hs : s = localSignature
    · have hcond : ¬ (s ≠ localSignature) := fun hc => hc hs
      simp only [parseLocalHeader, hr, if_neg hcond] at h
      cases hf : readLocalFields utf8 buf off s with
      | none => simp [hf] at h
      | some header =>
        simp only [hf, Except.ok.injEq] at h
        rw [← h]
        obtain ⟨h1, h2, h3⟩ := readLocalFields_spec utf8 buf off s header hf
        exact ⟨h1.trans hs, h2, h3⟩
    · simp [parseLocalHeader, hr, if_pos hs] at h

/-- C6: extraction parses the Local File Header at the entry offset
(requiring signature 0x04034b50, else a typed failure), computes the data
offset from that local header, reading the name and extra-field lengths
fresh at offsets 26 and 28 of the local header rather than from the Central
Directory copy, takes exactly compressedSize bytes from the data offset
(the slice has length compressedSize whenever the buffer holds them),
returns them unchanged for method 0, applies raw-deflate inflation for
method 8 (hence any inflate and deflate pair satisfying the round-trip law
recovers the original bytes), and fails with the unsupported compression
condition for any other method. -/
theorem C6_extract_file_dispatch :
    (∀ (inflateRaw : List Nat → Except ZipError (List Nat))
      (utf8 : List Nat → String) (buf : List Nat)
      (entry : ZipCentralDirectory) (lh : ZipLocalHeader),
      parseLocalHeader utf8 buf entry.localHeaderOffset = .ok lh →
      (entry.compressionMethod = 0 →
        extractFile inflateRaw utf8 buf entry = .ok (sliceBytes buf
          (entry.localHeaderOffset + 30 + lh.fileNameLength + lh.extraFieldLength)
          (entry.localHeaderOffset + 30 + lh.fileNameLength + lh.extraFieldLength
            + entry.compressedSize))) ∧
      (entry.compressionMethod = 8 →
        extractFile inflateRaw utf8 buf entry = inflateRaw (sliceBytes buf
          (entry.localHeaderOffset + 30 + lh.fileNameLength + lh.extraFieldLength)
          (entry.localHeaderOffset + 30 + lh.fileNameLength + lh.extraFieldLength
            + entry.compressedSize))) ∧
      (entry.compressionMethod ≠ 0 → entry.compressionMethod ≠ 8 →
        extractFile inflateRaw utf8 buf entry =
          .error (.unsupportedCompressionMethod entry.compressionMethod))) ∧
    (∀ (utf8 : List Nat → String) (buf : List Nat) (off s : Nat),
      readUInt32LE buf off = some s → s ≠ localSignature →
      parseLocalHeader utf8 buf off = .error (.invalidLocalSignature s)) ∧
    (∀ (utf8 : List Nat → String) (buf : List Nat) (off : Nat)
      (lh : ZipLocalHeader), parseLocalHeader utf8 buf off = .ok lh →
      lh.signature = localSignature ∧
      readUInt16LE buf (off + 26) = some lh.fileNameLength ∧
      readUInt16LE buf (off + 28) = some lh.extraFieldLength) ∧
    (∀ (buf : List Nat) (a n : Nat), a + n ≤ buf.length →
      (sliceBytes buf a (a + n)).length = n) ∧
    (∀ (inflateRaw : List Nat → Except ZipError (List Nat))
      (deflateRaw : List Nat → List Nat),
      (∀ x, inflateRaw (deflateRaw x) = .ok x) →
      ∀ (utf8 : List Nat → String) (buf : List Nat)
        (entry : ZipCentralDirectory) (lh : ZipLocalHeader) (x : List Nat),
        parseLocalHeader utf8 buf entry.localHeaderOffset = .ok lh →
        entry.compressionMethod = 8 →
        sliceBytes buf
          (entry.localHeaderOffset + 30 + lh.fileNameLength + lh.extraFieldLength)
          (entry.localHeaderOffset + 30 + lh.fileNameLength + lh.extraFieldLength
            + entry.compressedSize) = deflateRaw x →
        extractFile inflateRaw utf8 buf entry = .ok x) := by
  have hmain : ∀ (inflateRaw : List Nat → Except ZipError (List Nat))
      (utf8 : List Nat → String) (buf : List Nat)
      (entry : ZipCentralDirectory) (lh : ZipLocalHeader),
      parseLocalHeader utf8 buf entry.localHeaderOffset = .ok lh →
      (entry.compressionMethod = 0 →
        extractFile inflateRaw utf8 buf entry = .ok (sliceBytes buf
          (entry.localHeaderOffset + 30 + lh.fileNameLength + lh.extraFieldLength)
          (entry.localHeaderOffset + 30 + lh.fileNameLength + lh.extraFieldLength
            + entry.compressedSize))) ∧
      (entry.compressionMethod = 8 →
        extractFile inflateRaw utf8 buf entry = inflateRaw (sliceBytes buf
          (entry.localHeaderOffset + 30 + lh.fileNameLength + lh.extraFieldLength)
          (entry.localHeaderOffset + 30 + lh.fileNameLength + lh.extraFieldLength
            + entry.compressedSize))) ∧
      (entry.compressionMethod ≠ 0 → entry.compressionMethod ≠ 8 →
        extractFile inflateRaw utf8 buf entry =
          .error (.unsupportedCompressionMethod entry.compressionMethod)) := by
    intro inflateRaw utf8 buf entry lh hp
    refine ⟨?_, ?_, ?_⟩
    · intro h0
      simp [extractFile, hp, h0]
    · intro h8
      simp [extractFile, hp, h8]
    · intro h0 h8
      simp [extractFile, hp, h0, h8]
  refine ⟨hmain, parseLocalHeader_bad_signature, parseLocalHeader_ok_spec, ?_, ?_⟩
  · intro buf a n hle
    simp [sliceBytes]
    omega
  · intro inflateRaw deflateRaw hrt utf8 buf entry lh x hp h8 hslice
    have h := (hmain inflateRaw utf8 buf entry lh hp).2.1 h8
    rw [hslice] at h
    rw [h, hrt x]

/-- Witness for C6: store-method extraction of the demo entry returns the
three data bytes unchanged. -/
theorem C6_witness :
    extractFile (fun b => .ok b) (fun _ => "") demoBuf demoEntry =
      .ok [10, 20, 30] :=
  ((C6_extract_file_dispatch.1 (fun b => .ok b) (fun _ => "") demoBuf demoEntry
    demoLocalHeader rfl).1 rfl).trans rfl

/-- A successful find? returns a satisfying element and splits the list at
its first occurrence. -/
theorem find?_first_decomp {α : Type} (p : α → Bool) :
    ∀ (l : List α) (a : α), l.find? p = some a →
      p a = true ∧ ∃ s t, l = s ++ a :: t ∧ ∀ x ∈ s, p x = false := by
  intro l
  induction l with
  | nil =>
    intro a h
    cases h
  | cons x xs ih =>
    intro a h
    by_cases hx : p x = true
    · rw [List.find?_cons_of_pos _ hx] at h
      cases h
      exact ⟨hx, [], xs, rfl, by simp⟩
    · rw [List.find?_cons_of_neg _ hx] at h
      have hx' : p x = false := by simpa using hx
      obtain ⟨hpa, s, t, hst, hs⟩ := ih a h
      refine ⟨hpa, x :: s, t, by simp [hst], ?_⟩
      intro y hy
      rcases List.mem_cons.mp hy with rfl | hy'
      · exact hx'
      · exact hs y hy'

/-- C9: entry lookup by name is prefix-tolerant: a query for a name returns
the first entry, in central directory order, whose name is exactly the query
or exactly the query under extension/, and absence is the not-found result
rather than an error; in particular an archive whose only descriptor entry
is extension/package.json is found by the package.json lookup, and a query
for icon.png finds icon.png or extension/icon.png. -/
theorem C9_find_entry_prefix_tolerant :
    (∀ (cd : List ZipCentralDirectory) (n : String) (e : ZipCentralDirectory),
      findIconEntry cd n = some e →
      e ∈ cd ∧ (e.fileName = n ∨ e.fileName = "extension/" ++ n) ∧
      ∃ s t, cd = s ++ e :: t ∧
        ∀ x ∈ s, x.fileName ≠ n ∧ x.fileName ≠ "extension/" ++ n) ∧
    (∀ (cd : List ZipCentralDirectory) (n : String),
      findIconEntry cd n = none ↔
        ∀ x ∈ cd, x.fileName ≠ n ∧ x.fileName ≠ "extension/" ++ n) ∧
    (∀ e : ZipCentralDirectory, e.fileName = "extension/package.json" →
      findPackageJsonEntry [e] = some e) ∧
    (∀ e : ZipCentralDirectory,
      e.fileName = "icon.png" ∨ e.fileName = "extension/icon.png" →
      findIconEntry [e] "icon.png" = some e) := by
  refine ⟨?_, ?_, ?_, ?_⟩
  · intro cd n e h
    obtain ⟨hpe, s, t, hst, hs⟩ := find?_first_decomp _ cd e h
    refine ⟨by rw [hst]; exact List.mem_append_right _ (List.mem_cons_self e t),
      ?_, s, t, hst, ?_⟩
    · rcases (Bool.or_eq_true _ _).mp hpe with h1 | h1
      · exact Or.inl (by simpa using h1)
      · exact Or.inr (by simpa using h1)
    · intro x hx
      have := hs x hx
      constructor
      · intro hc
        simp [hc] at this
      · intro hc
        simp [hc] at this
  · intro cd n
    rw [findIconEntry, List.find?_eq_none]
    constructor
    · intro h x hx
      have := h x hx
      constructor
      · intro hc
        simp [hc] at this
      · intro hc
        simp [hc] at this
    · intro h x hx
      have := h x hx
      simp [this.1, this.2]
  · intro e he
    simp [findPackageJsonEntry, he]
  · intro e he
    rcases he with he | he <;> simp [findIconEntry, he]

/-- Witness for C9: the bare package.json lookup finds the prefixed entry. -/
theorem C9_witness : findPackageJsonEntry [demoPkgEntry] = some demoPkgEntry :=
  C9_find_entry_prefix_tolerant.2.2.1 demoPkgEntry rfl

/-- C10: once the central directory is available, the optional resource
extractors never propagate a failure: a missing entry yields null, any
extraction failure (bad local header, unsupported method, inflate error) is
caught to null, and a successful extraction yields exactly the icon bytes,
readme text, or changelog text. -/
theorem C10_optional_resources_null_on_failure :
    (∀ (inflateRaw : List Nat → Except ZipError (List Nat))
      (utf8 : List Nat → String) (buf : List Nat)
      (cd : List ZipCentralDirectory) (iconPath : String),
      (findIconEntry cd iconPath = none →
        extractIcon inflateRaw utf8 buf cd iconPath = none) ∧
      (∀ e err, findIconEntry cd iconPath = some e →
        extractFile inflateRaw utf8 buf e = .error err →
        extractIcon inflateRaw utf8 buf cd iconPath = none) ∧
      (∀ e bytes, findIconEntry cd iconPath = some e →
        extractFile inflateRaw utf8 buf e = .ok bytes →
        extractIcon inflateRaw utf8 buf cd iconPath = some bytes)) ∧
    (∀ (inflateRaw : List Nat → Except ZipError (List Nat))
      (utf8 : List Nat → String) (buf : List Nat)
      (cd : List ZipCentralDirectory),
      (findReadmeEntry cd = none → extractReadme inflateRaw utf8 buf cd = none) ∧
      (∀ e err, findReadmeEntry cd = some e →
        extractFile inflateRaw utf8 buf e = .error err →
        extractReadme inflateRaw utf8 buf cd = none) ∧
      (∀ e bytes, findReadmeEntry cd = some e →
        extractFile inflateRaw utf8 buf e = .ok bytes →
        extractReadme inflateRaw utf8 buf cd = some (utf8 bytes))) ∧
    (∀ (inflateRaw : List Nat → Except ZipError (List Nat))
      (utf8 : List Nat → String) (buf : List Nat)
      (cd : List ZipCentralDirectory),
      (findChangelogEntry cd = none →
        extractChangelog inflateRaw utf8 buf cd = none) ∧
      (∀ e err, findChangelogEntry cd = some e →
        extractFile inflateRaw utf8 buf e = .error err →
        extractChangelog inflateRaw utf8 buf cd = none) ∧
      (∀ e bytes, findChangelogEntry cd = some e →
        extractFile inflateRaw utf8 buf e = .ok bytes →
        extractChangelog inflateRaw utf8 buf cd = some (utf8 bytes))) := by
  refine ⟨?_, ?_, ?_⟩
  · intro inflateRaw utf8 buf cd iconPath
    refine ⟨?_, ?_, ?_⟩
    · intro h
      simp [extractIcon, h]
    · intro e err hfind hext
      simp [extractIcon, hfind, hext]
    · intro e bytes hfind hext
      simp [extractIcon, hfind, hext]
  · intro inflateRaw utf8 buf cd
    refine ⟨?_, ?_, ?_⟩
    · intro h
      simp [extractReadme, h]
    · intro e err hfind hext
      simp [extractReadme, hfind, hext]
    · intro e bytes hfind hext
      simp [extractReadme, hfind, hext]
  · intro inflateRaw utf8 buf cd
    refine ⟨?_, ?_, ?_⟩
    · intro h
      simp [extractChangelog, h]
    · intro e err hfind hext
      simp [extractChangelog, hfind, hext]
    · intro e bytes hfind hext
      simp [extractChangelog, hfind, hext]

/-- Witness for C10: on an empty central directory all three extractors
return null. -/
theorem C10_witness :
    extractIcon (fun b => .ok b) (fun _ => "") [] [] "icon.png" = none ∧
    extractReadme (fun b => .ok b) (fun _ => "") [] [] = none ∧
    extractChangelog (fun b => .ok b) (fun _ => "") [] [] = none :=
  ⟨(C10_optional_resources_null_on_failure.1 (fun b => .ok b) (fun _ => "")
      [] [] "icon.png").1 rfl,
   (C10_optional_resources_null_on_failure.2.1 (fun b => .ok b) (fun _ => "")
      [] []).1 rfl,
   (C10_optional_resources_null_on_failure.2.2 (fun b => .ok b) (fun _ => "")
      [] []).1 rfl⟩

end PrivExtMgr
